import Mathlib

/-!
Verification of `dnn_rs`, a minimal feed-forward neural-network training
engine written in Rust over `nalgebra::DMatrix<f64>`.

Shallow embedding conventions:
* a `DMatrix<f64>` is modelled as a row-major `List (List α)`; `f64` values
  are modelled as exact rationals (`ℚ`) for the rational-valued operations
  (Identity, ReLU, the SGD update arithmetic) and as real numbers (`ℝ`)
  where the code uses the exponential function (Sigmoid);
* `nalgebra` panics (dimension-mismatch asserts, `assert!` preconditions,
  out-of-bounds indexing) are modelled with `Option`/`Except`: `none` /
  `.error` means the Rust code panics at that point; an `.error` value
  carries the state as it stands at the panic point;
* methods that mutate `&mut self` are modelled as functions returning the
  result together with the new instance state.

The sources provided are `src/optim/sgd.rs` and `src/nn/activation.rs`.
The `NeuralNetwork` / `Layer` / loss types they use live in modules that
are not part of the provided sources; those are modelled from the spec
(§4.2–§4.4) and marked `Modelled from the spec:` below.
-/

namespace DnnRs

/-- Row-major dense matrix, the embedding of `nalgebra::DMatrix`. -/
abbrev Mat (α : Type) := List (List α)

namespace Mat

/-- Number of rows (`DMatrix::nrows`). -/
def nrows (m : Mat α) : Nat := m.length

/-- Number of columns (`DMatrix::ncols`); row-major, so the length of the
first row (0 when the matrix has no rows). -/
def ncols : Mat α → Nat
  | [] => 0
  | r :: _ => r.length

/-- `DMatrix::is_empty`: true when the matrix holds no entries. -/
def isEmpty : Mat α → Bool
  | [] => true
  | r :: _ => r.isEmpty

/-- A `DMatrix` is rectangular: every row has the common column count. -/
def WF (m : Mat α) : Prop :=
  ∀ r ∈ m, r.length = m.ncols

instance (m : Mat α) : Decidable m.WF := by
  unfold WF; infer_instance

/-- Entry access `m[(i, j)]`, with a default of `0` out of bounds (the
theorems below always constrain `i`, `j` to be in bounds). -/
def entry [Zero α] (m : Mat α) (i j : Nat) : α :=
  (m.getD i []).getD j 0

/-- `DMatrix::zeros`. -/
def zeros [Zero α] (r c : Nat) : Mat α :=
  List.replicate r (List.replicate c 0)

/-- Elementwise `DMatrix::map`. -/
def map (f : α → β) (m : Mat α) : Mat β :=
  List.map (List.map f) m

/-- Scalar–matrix product (`lr * &M` in the Rust code). -/
def smul [Mul α] (c : α) (m : Mat α) : Mat α :=
  map (fun x => c * x) m

/-- Shape equality check: `nalgebra` binary elementwise operations panic
unless both operands have identical shapes. -/
def sameShapeB : Mat α → Mat β → Bool
  | [], [] => true
  | r :: a, t :: b => r.length == t.length && sameShapeB a b
  | _, _ => false

/-- Generic fallible elementwise combination: `none` models the
`nalgebra` dimension-mismatch panic. -/
def ewise (f : α → α → α) (a b : Mat α) : Option (Mat α) :=
  if sameShapeB a b then some (List.zipWith (List.zipWith f) a b) else none

/-- `DMatrix::component_mul` (elementwise product). -/
def component_mul [Mul α] (a b : Mat α) : Option (Mat α) :=
  ewise (fun x y => x * y) a b

/-- Elementwise matrix sum (`&A + &B`). -/
def matAdd [Add α] (a b : Mat α) : Option (Mat α) :=
  ewise (fun x y => x + y) a b

/-- Elementwise matrix difference (`&A - &B`, also `A -= B`). -/
def matSub [Sub α] (a b : Mat α) : Option (Mat α) :=
  ewise (fun x y => x - y) a b

/-- All entries are zero. -/
def IsZero [Zero α] (m : Mat α) : Prop :=
  ∀ r ∈ m, ∀ x ∈ r, x = 0

instance [Zero α] [DecidableEq α] (m : Mat α) : Decidable (IsZero m) := by
  unfold IsZero; infer_instance

end Mat

/-! ## `src/nn/activation.rs` (provided source)

Each Rust activation struct holds the last forward output `A`;
`new()` initialises it to `DMatrix::zeros(0, 0)`. `forward` mutates `A`
and returns a copy; it is modelled as returning the pair
(result, new instance state). -/

/-- `struct Identity { A: DMatrix<f64> }`. -/
structure Identity where
  A : Mat ℚ
deriving DecidableEq

/-- `Identity::new()`. -/
def Identity.new : Identity :=
  { A := Mat.zeros 0 0 }

/-- `Identity::forward`: `self.A = Z.clone(); return self.A.clone()`. -/
def Identity.forward (_s : Identity) (Z : Mat ℚ) : Mat ℚ × Identity :=
  (Z, { A := Z })

/-- `Identity::backward`: returns `dLdA.clone()`; note the Rust method has
no precondition check of any kind. -/
def Identity.backward (_s : Identity) (dLdA : Mat ℚ) : Mat ℚ :=
  dLdA

/-- `struct ReLU { A: DMatrix<f64> }`. -/
structure ReLU where
  A : Mat ℚ
deriving DecidableEq

/-- `ReLU::new()`. -/
def ReLU.new : ReLU :=
  { A := Mat.zeros 0 0 }

/-- `ReLU::forward`: `self.A = Z.map(|x| x.max(0.0))`. -/
def ReLU.forward (_s : ReLU) (Z : Mat ℚ) : Mat ℚ × ReLU :=
  (Mat.map (fun x => max x 0) Z, { A := Mat.map (fun x => max x 0) Z })

/-- `ReLU::backward`: asserts `!self.A.is_empty()` (panic = `none`), then
returns `dLdA.component_mul(&dAdZ)` with
`dAdZ = A.map(|x| if x > 0.0 { 1.0 } else { 0.0 })`. -/
def ReLU.backward (s : ReLU) (dLdA : Mat ℚ) : Option (Mat ℚ) :=
  if s.A.isEmpty then none
  else Mat.component_mul dLdA (Mat.map (fun x => if 0 < x then (1 : ℚ) else 0) s.A)

/-- `struct Sigmoid { A: DMatrix<f64> }`. -/
structure Sigmoid where
  A : Mat ℝ

/-- `Sigmoid::new()`. -/
noncomputable def Sigmoid.new : Sigmoid :=
  { A := Mat.zeros 0 0 }

/-- `Sigmoid::forward`: `self.A = Z.map(|x| 1.0/(1.0 + consts::E.powf(x)))`
— note the exponent is `+x`, not `-x`. -/
noncomputable def Sigmoid.forward (_s : Sigmoid) (Z : Mat ℝ) : Mat ℝ × Sigmoid :=
  (Mat.map (fun x => 1 / (1 + Real.exp x)) Z,
   { A := Mat.map (fun x => 1 / (1 + Real.exp x)) Z })

/-- `Sigmoid::backward`: `dAdZ = A.map(|x| x * (1.0 - x))`, then
`dLdA.component_mul(&dAdZ)`; no precondition check, but `component_mul`
panics on a shape mismatch with the stored `A`. -/
noncomputable def Sigmoid.backward (s : Sigmoid) (dLdA : Mat ℝ) : Option (Mat ℝ) :=
  Mat.component_mul dLdA (Mat.map (fun x => x * (1 - x)) s.A)

/-! ## Modelled from the spec: `Layer`, `LossFunction`, `NeuralNetwork`

`src/nn/model.rs` (and the layer/loss modules) are not part of the provided
sources; only `sgd.rs` calls into them. They are modelled from spec
§4.2–§4.4. The activation owned by a layer is restricted to the two
rational-valued variants (Identity, ReLU) so that the model stays
executable over `ℚ`; every SGD claim settled against this model is
independent of the activation variant. -/

/-- Modelled from the spec: the activation instance owned by a layer
(spec §4.3 "an owned ActivationFunction instance"), as a tagged variant
over the provided activation structs. -/
inductive Act
  | idn : Identity → Act
  | relu : ReLU → Act
deriving DecidableEq

/-- Dispatch `forward` to the owned activation (spec §4.1). -/
def Act.forward : Act → Mat ℚ → Mat ℚ × Act
  | .idn s, Z => ((s.forward Z).1, .idn (s.forward Z).2)
  | .relu s, Z => ((s.forward Z).1, .relu (s.forward Z).2)

/-- Dispatch `backward` to the owned activation (spec §4.1). -/
def Act.backward : Act → Mat ℚ → Option (Mat ℚ)
  | .idn s, d => some (s.backward d)
  | .relu s, d => s.backward d

/-- Modelled from the spec (§3, §4.3): a layer owns parameters `W`, `b`,
an activation instance, and single-step caches `X`, `Z`, `dLdW`, `dLdb`;
the sequencing precondition is tracked by an explicit flag (spec §9). -/
structure Layer where
  W : Mat ℚ
  b : Mat ℚ
  act : Act
  X : Mat ℚ
  Z : Mat ℚ
  dLdW : Mat ℚ
  dLdb : Mat ℚ
  fwdDone : Bool
deriving DecidableEq

/-- Default layer used only as the out-of-bounds default of `List.getD`. -/
def layer0 : Layer :=
  { W := [], b := [], act := .idn Identity.new, X := [], Z := [],
    dLdW := [], dLdb := [], fwdDone := false }

/-- Matrix product with the `nalgebra` inner-dimension panic modelled as
`none` (spec §3: incompatible shapes are a contract error). -/
def Mat.matMul (a b : Mat ℚ) : Option (Mat ℚ) :=
  if a.ncols = b.nrows then
    some (List.map (fun r =>
      (List.range b.ncols).map (fun j =>
        (List.zipWith (fun x y => x * y) r (List.map (fun br => br.getD j 0) b)).sum)) a)
  else none

/-- Column transpose, used by the modelled layer backward pass. -/
def Mat.transpose (m : Mat ℚ) : Mat ℚ :=
  (List.range m.ncols).map (fun j => List.map (fun r => r.getD j 0) m)

/-- Row-wise sum over the batch dimension (spec §4.3:
`dLdb = rowwise-sum(dLdZ)`). -/
def Mat.rowwiseSum (m : Mat ℚ) : Mat ℚ :=
  List.map (fun r => [r.sum]) m

/-- Bias broadcast `Z = W·X + b` (spec §4.3: `b` has shape out-dim × 1 and
is broadcast across the batch); fails when `b` is not a column of matching
height. -/
def Mat.addBias (m b : Mat ℚ) : Option (Mat ℚ) :=
  if b.nrows = m.nrows ∧ b.ncols = 1 then
    some (List.zipWith (fun r br => r.map (fun x => x + br.getD 0 0)) m b)
  else none

/-- Modelled from the spec (§4.3): layer forward pass — store `X`, compute
`Z = W·X + b`, delegate to the activation, flag the step. -/
def Layer.forward (l : Layer) (X : Mat ℚ) : Option (Mat ℚ × Layer) :=
  match Mat.matMul l.W X with
  | none => none
  | some WX =>
    match Mat.addBias WX l.b with
    | none => none
    | some Z =>
      some ((l.act.forward Z).1,
        { l with X := X, Z := Z, act := (l.act.forward Z).2, fwdDone := true })

/-- Modelled from the spec (§4.3): layer backward pass — fails before a
matching forward; computes `dLdZ`, stores `dLdW = dLdZ·Xᵗ` and
`dLdb = rowwise-sum(dLdZ)`, returns `dLdX = Wᵗ·dLdZ`. -/
def Layer.backward (l : Layer) (dLdA : Mat ℚ) : Option (Mat ℚ × Layer) :=
  if l.fwdDone then
    match l.act.backward dLdA with
    | none => none
    | some dLdZ =>
      match Mat.matMul dLdZ (Mat.transpose l.X) with
      | none => none
      | some dW =>
        match Mat.matMul (Mat.transpose l.W) dLdZ with
        | none => none
        | some dX => some (dX, { l with dLdW := dW, dLdb := Mat.rowwiseSum dLdZ })
  else none

/-- Modelled from the spec (§4.2): the loss contract — `forward` stores
whatever state `backward` needs; mean squared error is taken as the
representative reduction ("e.g. mean squared error"). -/
structure MSELoss where
  pred : Mat ℚ
  target : Mat ℚ
  fwdDone : Bool
deriving DecidableEq

/-- Modelled from the spec (§4.2): loss forward pass — scalar reduction
over the batch, storing the state needed by `backward`; fails on a shape
mismatch between prediction and target. -/
def MSELoss.forward (_L : MSELoss) (pred target : Mat ℚ) : Option (ℚ × MSELoss) :=
  match Mat.matSub pred target with
  | none => none
  | some d =>
    some ((List.map List.sum (Mat.map (fun x => x * x) d)).sum
            / ((pred.nrows * pred.ncols : Nat) : ℚ),
          { pred := pred, target := target, fwdDone := true })

/-- Modelled from the spec (§4.2): loss backward pass — returns
`dLoss/dPrediction`, only after `forward`. -/
def MSELoss.backward (L : MSELoss) : Option (Mat ℚ) :=
  if L.fwdDone then
    match Mat.matSub L.pred L.target with
    | none => none
    | some d => some (Mat.smul (2 / ((L.pred.nrows * L.pred.ncols : Nat) : ℚ)) d)
  else none

/-- Modelled from the spec (§4.4): an ordered sequence of layers plus one
loss instance. -/
structure NeuralNetwork where
  layers : List Layer
  loss : MSELoss
deriving DecidableEq

/-- Forward pass over the layer sequence in order, piping each output into
the next layer. On failure the `.error` value carries the layer list as it
stands at the panic point (layers already run keep their new caches). -/
def forwardLayers : List Layer → Mat ℚ → Except (List Layer) (Mat ℚ × List Layer)
  | [], X => .ok (X, [])
  | l :: ls, X =>
    match l.forward X with
    | none => .error (l :: ls)
    | some r =>
      match forwardLayers ls r.1 with
      | .error ls' => .error (r.2 :: ls')
      | .ok r2 => .ok (r2.1, r.2 :: r2.2)

/-- Backward pass over the layer sequence in reverse order, piping each
`dLdX` into the preceding layer (spec §4.4). The `.error` value again
carries the layer list at the panic point. -/
def backwardLayers : List Layer → Mat ℚ → Except (List Layer) (Mat ℚ × List Layer)
  | [], g => .ok (g, [])
  | l :: ls, g =>
    match backwardLayers ls g with
    | .error ls' => .error (l :: ls')
    | .ok r =>
      match l.backward r.1 with
      | none => .error (l :: r.2)
      | some r2 => .ok (r2.1, r2.2 :: r.2)

/-- Modelled from the spec (§4.4): `NeuralNetwork::forward`. -/
def NeuralNetwork.forward (nn : NeuralNetwork) (x : Mat ℚ) :
    Except NeuralNetwork (Mat ℚ × NeuralNetwork) :=
  match forwardLayers nn.layers x with
  | .error ls => .error { nn with layers := ls }
  | .ok r => .ok (r.1, { nn with layers := r.2 })

/-- Modelled from the spec (§4.4): `NeuralNetwork::backward` — obtains the
initial gradient from the loss, then runs the layers in reverse order. -/
def NeuralNetwork.backward (nn : NeuralNetwork) :
    Except NeuralNetwork (Mat ℚ × NeuralNetwork) :=
  match nn.loss.backward with
  | none => .error nn
  | some g =>
    match backwardLayers nn.layers g with
    | .error ls => .error { nn with layers := ls }
    | .ok r => .ok (r.1, { nn with layers := r.2 })

/-! ## `src/optim/sgd.rs` (provided source) -/

/-- `struct SGD { model, lr, mu, v_W, v_b }`. -/
structure SGD where
  model : NeuralNetwork
  lr : ℚ
  mu : ℚ
  v_W : List (Mat ℚ)
  v_b : List (Mat ℚ)
deriving DecidableEq

/-- `SGD::new`: one zero velocity matrix pair per layer, shaped like the
layer's `W` and `b`. -/
def SGD.new (model : NeuralNetwork) (lr mu : ℚ) : SGD :=
  { model := model, lr := lr, mu := mu,
    v_W := model.layers.map (fun l => Mat.zeros l.W.nrows l.W.ncols),
    v_b := model.layers.map (fun l => Mat.zeros l.b.nrows l.b.ncols) }

/-- Steps 1–3 of `SGD::update`: `model.forward(x)`, `loss.forward(Z, y)`
(scalar discarded), `model.backward()` (returned gradient discarded).
On failure the `.error` carries the model state at the panic point. -/
def SGD.stepFwdBwd (s : SGD) (x y : Mat ℚ) : Except NeuralNetwork NeuralNetwork :=
  match s.model.forward x with
  | .error m => .error m
  | .ok r =>
    match r.2.loss.forward r.1 y with
    | none => .error r.2
    | some p =>
      match NeuralNetwork.backward { layers := r.2.layers, loss := p.2 } with
      | .error m => .error m
      | .ok r2 => .ok r2.2

/-- Step 4 of `SGD::update`: the per-layer parameter mutation loop, with
the co-indexed velocity lists. A `none` models a panic (shape mismatch in
one of the matrix operations, or `v_W`/`v_b` shorter than the layer list). -/
def updLoop (lr mu : ℚ) :
    List Layer → List (Mat ℚ) → List (Mat ℚ) →
    Option (List Layer × List (Mat ℚ) × List (Mat ℚ))
  | [], vW, vb => some ([], vW, vb)
  | l :: ls, vw :: vWs, vb0 :: vbs =>
    if mu = 0 then
      match Mat.matSub l.W (Mat.smul lr l.dLdW) with
      | none => none
      | some W' =>
        match Mat.matSub l.b (Mat.smul lr l.dLdb) with
        | none => none
        | some b' =>
          match updLoop lr mu ls vWs vbs with
          | none => none
          | some r =>
            some ({ l with W := W', b := b' } :: r.1, vw :: r.2.1, vb0 :: r.2.2)
    else
      match Mat.matAdd (Mat.smul mu vw) l.dLdW with
      | none => none
      | some vw' =>
        match Mat.matAdd (Mat.smul mu vb0) l.dLdb with
        | none => none
        | some vb' =>
          match Mat.matSub l.W (Mat.smul lr vw') with
          | none => none
          | some W' =>
            match Mat.matSub l.b (Mat.smul lr vb') with
            | none => none
            | some b' =>
              match updLoop lr mu ls vWs vbs with
              | none => none
              | some r =>
                some ({ l with W := W', b := b' } :: r.1, vw' :: r.2.1, vb' :: r.2.2)
  | _ :: _, [], _ => none
  | _ :: _, _ :: _, [] => none

/-- `SGD::update`: steps 1–3, then the mutation loop; `none` models a
panic anywhere in the call. -/
def SGD.update (s : SGD) (x y : Mat ℚ) : Option SGD :=
  match s.stepFwdBwd x y with
  | .error _ => none
  | .ok m =>
    match updLoop s.lr s.mu m.layers s.v_W s.v_b with
    | none => none
    | some r =>
      some { s with model := { m with layers := r.1 }, v_W := r.2.1, v_b := r.2.2 }

/-! ## Basic lemmas about the matrix embedding -/

theorem list_getD_map (f : α → β) (l : List α) (i : Nat) (d : α) (d' : β)
    (h : i < l.length) : (List.map f l).getD i d' = f (l.getD i d) := by
  induction l generalizing i with
  | nil => simp at h
  | cons a t ih =>
    cases i with
    | zero => simp
    | succ n => simp only [List.map_cons, List.getD_cons_succ]; exact ih n (by simpa using h)

theorem list_getD_zipWith (f : α → β → γ) (a : List α) (b : List β) (i : Nat)
    (da : α) (db : β) (dc : γ) (ha : i < a.length) (hb : i < b.length) :
    (List.zipWith f a b).getD i dc = f (a.getD i da) (b.getD i db) := by
  induction a generalizing b i with
  | nil => simp at ha
  | cons x xs ih =>
    cases b with
    | nil => simp at hb
    | cons y ys =>
      cases i with
      | zero => simp
      | succ n =>
        simp only [List.zipWith_cons_cons, List.getD_cons_succ]
        exact ih ys n (by simpa using ha) (by simpa using hb)

theorem list_zipWith_zero_left [AddZeroClass α] (a b : List α)
    (hz : ∀ x ∈ a, x = 0) (hl : a.length = b.length) :
    List.zipWith (fun x y => x + y) a b = b := by
  induction a generalizing b with
  | nil => cases b with | nil => rfl | cons y ys => simp at hl
  | cons x xs ih =>
    cases b with
    | nil => simp at hl
    | cons y ys =>
      have hx : x = 0 := hz x (List.mem_cons_self x xs)
      simp only [List.zipWith_cons_cons, hx, zero_add, List.cons.injEq, true_and]
      exact ih ys (fun z hzz => hz z (List.mem_cons_of_mem x hzz)) (by simpa using hl)

namespace Mat

theorem sameShapeB_length {a : Mat α} {b : Mat β} (h : sameShapeB a b = true) :
    a.length = b.length := by
  induction a generalizing b with
  | nil => cases b with | nil => rfl | cons t ts => simp [sameShapeB] at h
  | cons r rs ih =>
    cases b with
    | nil => simp [sameShapeB] at h
    | cons t ts =>
      simp only [sameShapeB, Bool.and_eq_true, beq_iff_eq] at h
      simp [ih h.2]

theorem sameShapeB_row {a : Mat α} {b : Mat β} (h : sameShapeB a b = true)
    (i : Nat) (hi : i < a.length) :
    (a.getD i []).length = (b.getD i []).length := by
  induction a generalizing b i with
  | nil => simp at hi
  | cons r rs ih =>
    cases b with
    | nil => simp [sameShapeB] at h
    | cons t ts =>
      simp only [sameShapeB, Bool.and_eq_true, beq_iff_eq] at h
      cases i with
      | zero => simpa using h.1
      | succ n =>
        simp only [List.getD_cons_succ]
        exact ih h.2 n (by simpa using hi)

theorem sameShapeB_map_left (f : α → β) (a : Mat α) (b : Mat γ) :
    sameShapeB (map f a) b = sameShapeB a b := by
  induction a generalizing b with
  | nil => cases b <;> rfl
  | cons r rs ih =>
    cases b with
    | nil => rfl
    | cons t ts =>
      have h1 : sameShapeB (map f (r :: rs)) (t :: ts)
          = ((List.map f r).length == t.length && sameShapeB (map f rs) ts) := rfl
      rw [h1, ih ts, List.length_map]
      rfl

theorem sameShapeB_map_right (f : α → β) (a : Mat γ) (b : Mat α) :
    sameShapeB a (map f b) = sameShapeB a b := by
  induction a generalizing b with
  | nil => cases b <;> rfl
  | cons r rs ih =>
    cases b with
    | nil => rfl
    | cons t ts =>
      have h1 : sameShapeB (r :: rs) (map f (t :: ts))
          = (r.length == (List.map f t).length && sameShapeB rs (map f ts)) := rfl
      rw [h1, ih ts, List.length_map]
      rfl

theorem ewise_eq_some {f : α → α → α} {a b c : Mat α}
    (h : ewise f a b = some c) :
    sameShapeB a b = true ∧ c = List.zipWith (List.zipWith f) a b := by
  unfold ewise at h
  by_cases hs : sameShapeB a b = true
  · rw [if_pos hs] at h
    exact ⟨hs, (Option.some_inj.mp h).symm⟩
  · rw [if_neg hs] at h; cases h

theorem ewise_of_sameShape {f : α → α → α} {a b : Mat α}
    (hs : sameShapeB a b = true) :
    ewise f a b = some (List.zipWith (List.zipWith f) a b) := by
  unfold ewise
  rw [if_pos hs]

theorem ewise_entry [Zero α] {f : α → α → α} {a b c : Mat α}
    (h : ewise f a b = some c) (i j : Nat)
    (hi : i < a.length) (hj : j < (a.getD i []).length) :
    entry c i j = f (entry a i j) (entry b i j) := by
  obtain ⟨hs, rfl⟩ := ewise_eq_some h
  have hlen := sameShapeB_length hs
  have hrow := sameShapeB_row hs i hi
  unfold entry
  rw [list_getD_zipWith (List.zipWith f) a b i [] [] [] hi (hlen ▸ hi)]
  rw [list_getD_zipWith f _ _ j 0 0 0 hj (hrow ▸ hj)]

theorem entry_map [Zero α] [Zero β] (f : α → β) (m : Mat α) (i j : Nat)
    (hi : i < m.length) (hj : j < (m.getD i []).length) :
    entry (map f m) i j = f (entry m i j) := by
  unfold entry map
  rw [list_getD_map (List.map f) m i [] [] hi]
  rw [list_getD_map f _ j 0 0 hj]

theorem isZero_zeros [Zero α] (r c : Nat) : IsZero (zeros (α := α) r c) := by
  intro row hrow x hx
  have : row = List.replicate c 0 := List.eq_of_mem_replicate hrow
  subst this
  exact List.eq_of_mem_replicate hx

theorem isZero_smul [MulZeroClass α] {c : α} {m : Mat α}
    (h : IsZero m) : IsZero (smul c m) := by
  intro row hrow x hx
  simp only [smul, map, List.mem_map] at hrow
  obtain ⟨r0, hr0, rfl⟩ := hrow
  simp only [List.mem_map] at hx
  obtain ⟨x0, hx0, rfl⟩ := hx
  rw [h r0 hr0 x0 hx0, mul_zero]

theorem zipWith_rows_isZero_left [AddZeroClass α] {a b : Mat α}
    (hz : IsZero a) (hs : sameShapeB a b = true) :
    List.zipWith (List.zipWith (fun x y => x + y)) a b = b := by
  induction a generalizing b with
  | nil => cases b with | nil => rfl | cons t ts => simp [sameShapeB] at hs
  | cons r rs ih =>
    cases b with
    | nil => simp [sameShapeB] at hs
    | cons t ts =>
      simp only [sameShapeB, Bool.and_eq_true, beq_iff_eq] at hs
      simp only [List.zipWith_cons_cons, List.cons.injEq]
      constructor
      · exact list_zipWith_zero_left r t (hz r (List.mem_cons_self r rs)) hs.1
      · exact ih (fun z hzz x hxx => hz z (List.mem_cons_of_mem r hzz) x hxx) hs.2

theorem matAdd_isZero_left [AddZeroClass α] {a b c : Mat α}
    (hz : IsZero a) (h : matAdd a b = some c) : c = b := by
  obtain ⟨hs, rfl⟩ := ewise_eq_some h
  exact zipWith_rows_isZero_left hz hs

theorem nrows_zeros [Zero α] (r c : Nat) : (zeros (α := α) r c).nrows = r := by
  simp [zeros, nrows]

theorem ncols_zeros [Zero α] (r c : Nat) (hr : 0 < r) :
    (zeros (α := α) r c).ncols = c := by
  cases r with
  | zero => simp at hr
  | succ n => simp [zeros, ncols, List.replicate_succ]

theorem ncols_map (f : α → β) (m : Mat α) : (map f m).ncols = m.ncols := by
  cases m with
  | nil => rfl
  | cons r rs => simp [map, ncols]

theorem isEmpty_eq_false {m : Mat α} (h1 : 0 < m.length) (h2 : 0 < m.ncols) :
    m.isEmpty = false := by
  cases m with
  | nil => simp at h1
  | cons r rs =>
    simp only [isEmpty]
    cases r with
    | nil => simp [ncols] at h2
    | cons x xs => rfl

end Mat

/-! ## The layer parameters (`W`, `b`) of a layer list -/

/-- The trainable parameters of a layer list, in order. -/
def layerParams (ls : List Layer) : List (Mat ℚ × Mat ℚ) :=
  ls.map (fun l => (l.W, l.b))

theorem Layer.forward_preserves_params {l : Layer} {X : Mat ℚ} {r : Mat ℚ × Layer}
    (h : l.forward X = some r) : r.2.W = l.W ∧ r.2.b = l.b := by
  unfold Layer.forward at h
  split at h
  · cases h
  · split at h
    · cases h
    · cases h
      exact ⟨rfl, rfl⟩

theorem Layer.backward_preserves_params {l : Layer} {g : Mat ℚ} {r : Mat ℚ × Layer}
    (h : l.backward g = some r) : r.2.W = l.W ∧ r.2.b = l.b := by
  unfold Layer.backward at h
  split at h
  · split at h
    · cases h
    · split at h
      · cases h
      · split at h
        · cases h
        · cases h
          exact ⟨rfl, rfl⟩
  · cases h

theorem forwardLayers_params (ls : List Layer) (X : Mat ℚ) :
    (∀ {r}, forwardLayers ls X = .ok r → layerParams r.2 = layerParams ls)
    ∧ (∀ {ls'}, forwardLayers ls X = .error ls' → layerParams ls' = layerParams ls) := by
  induction ls generalizing X with
  | nil =>
    constructor
    · intro r h
      cases h
      rfl
    · intro ls' h
      cases h
  | cons l ls ih =>
    constructor
    · intro r h
      simp only [forwardLayers] at h
      split at h
      · cases h
      · rename_i r1 heq1
        split at h
        · cases h
        · rename_i r2 heq2
          cases h
          obtain ⟨hW, hb⟩ := Layer.forward_preserves_params heq1
          simp only [layerParams, List.map_cons, hW, hb, List.cons.injEq, true_and]
          exact (ih r1.1).1 heq2
    · intro ls' h
      simp only [forwardLayers] at h
      split at h
      · rename_i heq1
        cases h
        rfl
      · rename_i r1 heq1
        split at h
        · rename_i ls2 heq2
          cases h
          obtain ⟨hW, hb⟩ := Layer.forward_preserves_params heq1
          simp only [layerParams, List.map_cons, hW, hb, List.cons.injEq, true_and]
          exact (ih r1.1).2 heq2
        · cases h

theorem backwardLayers_params (ls : List Layer) (g : Mat ℚ) :
    (∀ {r}, backwardLayers ls g = .ok r → layerParams r.2 = layerParams ls)
    ∧ (∀ {ls'}, backwardLayers ls g = .error ls' → layerParams ls' = layerParams ls) := by
  induction ls generalizing g with
  | nil =>
    constructor
    · intro r h
      cases h
      rfl
    · intro ls' h
      cases h
  | cons l ls ih =>
    constructor
    · intro r h
      simp only [backwardLayers] at h
      split at h
      · cases h
      · rename_i r1 heq1
        split at h
        · cases h
        · rename_i r2 heq2
          cases h
          obtain ⟨hW, hb⟩ := Layer.backward_preserves_params heq2
          simp only [layerParams, List.map_cons, hW, hb, List.cons.injEq, true_and]
          exact (ih g).1 heq1
    · intro ls' h
      simp only [backwardLayers] at h
      split at h
      · rename_i ls2 heq1
        cases h
        simp only [layerParams, List.map_cons, List.cons.injEq, true_and]
        exact (ih g).2 heq1
      · rename_i r1 heq1
        split at h
        · rename_i heq2
          cases h
          simp only [layerParams, List.map_cons, List.cons.injEq, true_and]
          exact (ih g).1 heq1
        · cases h

theorem NeuralNetwork.forward_params (nn : NeuralNetwork) (x : Mat ℚ) :
    (∀ {r}, nn.forward x = .ok r → layerParams r.2.layers = layerParams nn.layers)
    ∧ (∀ {m}, nn.forward x = .error m → layerParams m.layers = layerParams nn.layers) := by
  constructor
  · intro r h
    unfold NeuralNetwork.forward at h
    split at h
    · cases h
    · rename_i r1 heq
      cases h
      exact (forwardLayers_params nn.layers x).1 heq
  · intro m h
    unfold NeuralNetwork.forward at h
    split at h
    · rename_i ls heq
      cases h
      exact (forwardLayers_params nn.layers x).2 heq
    · cases h

theorem NeuralNetwork.backward_params (nn : NeuralNetwork) :
    (∀ {r}, nn.backward = .ok r → layerParams r.2.layers = layerParams nn.layers)
    ∧ (∀ {m}, nn.backward = .error m → layerParams m.layers = layerParams nn.layers) := by
  constructor
  · intro r h
    unfold NeuralNetwork.backward at h
    split at h
    · cases h
    · rename_i g heq1
      split at h
      · cases h
      · rename_i r1 heq2
        cases h
        exact (backwardLayers_params nn.layers g).1 heq2
  · intro m h
    unfold NeuralNetwork.backward at h
    split at h
    · cases h
      rfl
    · rename_i g heq1
      split at h
      · rename_i ls heq2
        cases h
        exact (backwardLayers_params nn.layers g).2 heq2
      · cases h

theorem stepFwdBwd_params (s : SGD) (x y : Mat ℚ) :
    (∀ {m}, s.stepFwdBwd x y = .ok m → layerParams m.layers = layerParams s.model.layers)
    ∧ (∀ {m}, s.stepFwdBwd x y = .error m → layerParams m.layers = layerParams s.model.layers) := by
  constructor
  · intro m h
    unfold SGD.stepFwdBwd at h
    split at h
    · cases h
    · rename_i r1 heq1
      have hfw : layerParams r1.2.layers = layerParams s.model.layers :=
        (NeuralNetwork.forward_params s.model x).1 heq1
      split at h
      · cases h
      · rename_i p heq2
        split at h
        · cases h
        · rename_i r2 heq3
          cases h
          have hbw : layerParams r2.2.layers = layerParams r1.2.layers :=
            (NeuralNetwork.backward_params { layers := r1.2.layers, loss := p.2 }).1 heq3
          exact hbw.trans hfw
  · intro m h
    unfold SGD.stepFwdBwd at h
    split at h
    · rename_i m1 heq1
      cases h
      exact (NeuralNetwork.forward_params s.model x).2 heq1
    · rename_i r1 heq1
      have hfw : layerParams r1.2.layers = layerParams s.model.layers :=
        (NeuralNetwork.forward_params s.model x).1 heq1
      split at h
      · cases h
        exact hfw
      · rename_i p heq2
        split at h
        · rename_i m2 heq3
          cases h
          have hbw : layerParams m.layers = layerParams r1.2.layers :=
            (NeuralNetwork.backward_params { layers := r1.2.layers, loss := p.2 }).2 heq3
          exact hbw.trans hfw
        · cases h

theorem layerParams_getD {ls ls' : List Layer}
    (h : layerParams ls' = layerParams ls) (i : Nat) (hi : i < ls.length) :
    (ls'.getD i layer0).W = (ls.getD i layer0).W
    ∧ (ls'.getD i layer0).b = (ls.getD i layer0).b := by
  have hlen : ls'.length = ls.length := by
    have := congrArg List.length h
    simpa [layerParams] using this
  have h1 : (layerParams ls').getD i (layer0.W, layer0.b)
      = (layerParams ls).getD i (layer0.W, layer0.b) := by rw [h]
  rw [layerParams, layerParams,
    list_getD_map (fun l => (l.W, l.b)) ls' i layer0 (layer0.W, layer0.b) (hlen ▸ hi),
    list_getD_map (fun l => (l.W, l.b)) ls i layer0 (layer0.W, layer0.b) hi] at h1
  exact ⟨congrArg Prod.fst h1, congrArg Prod.snd h1⟩

theorem layerParams_length {ls ls' : List Layer}
    (h : layerParams ls' = layerParams ls) : ls'.length = ls.length := by
  have := congrArg List.length h
  simpa [layerParams] using this

/-! ## Extraction lemmas for the parameter-mutation loop -/

theorem updLoop_zero {lr : ℚ} {ls ls' : List Layer} {vW vb vW' vb' : List (Mat ℚ)}
    (h : updLoop lr 0 ls vW vb = some (ls', vW', vb')) :
    vW' = vW ∧ vb' = vb ∧ ls'.length = ls.length ∧
    ∀ i, i < ls.length →
      Mat.matSub (ls.getD i layer0).W (Mat.smul lr (ls.getD i layer0).dLdW)
        = some ((ls'.getD i layer0).W)
      ∧ Mat.matSub (ls.getD i layer0).b (Mat.smul lr (ls.getD i layer0).dLdb)
        = some ((ls'.getD i layer0).b) := by
  induction ls generalizing vW vb ls' vW' vb' with
  | nil =>
    simp only [updLoop, Option.some.injEq, Prod.mk.injEq] at h
    obtain ⟨h1, h2, h3⟩ := h
    subst h1; subst h2; subst h3
    exact ⟨rfl, rfl, rfl, fun i hi => absurd hi (by simp)⟩
  | cons l ls ih =>
    cases vW with
    | nil => simp only [updLoop] at h; exact Option.noConfusion h
    | cons vw vWs =>
      cases vb with
      | nil => simp only [updLoop] at h; exact Option.noConfusion h
      | cons vb0 vbs =>
        simp only [updLoop] at h
        split at h
        · split at h
          · cases h
          · rename_i W' heqW
            split at h
            · cases h
            · rename_i b' heqb
              split at h
              · cases h
              · rename_i r heqr
                cases h
                obtain ⟨r1, r2, r3⟩ := r
                obtain ⟨h1, h2, h3, h4⟩ := ih heqr
                refine ⟨by rw [h1], by rw [h2], by simpa using h3, ?_⟩
                intro i hi
                cases i with
                | zero =>
                  simp only [List.getD_cons_zero]
                  exact ⟨heqW, heqb⟩
                | succ n =>
                  simp only [List.getD_cons_succ]
                  exact h4 n (by simpa using hi)
        · rename_i hcond
          exact absurd trivial hcond

theorem updLoop_momentum {lr mu : ℚ} (hmu : mu ≠ 0)
    {ls ls' : List Layer} {vW vb vW' vb' : List (Mat ℚ)}
    (h : updLoop lr mu ls vW vb = some (ls', vW', vb')) :
    ls'.length = ls.length ∧
    ∀ i, i < ls.length →
      Mat.matAdd (Mat.smul mu (vW.getD i [])) ((ls.getD i layer0).dLdW)
        = some (vW'.getD i [])
      ∧ Mat.matAdd (Mat.smul mu (vb.getD i [])) ((ls.getD i layer0).dLdb)
        = some (vb'.getD i [])
      ∧ Mat.matSub (ls.getD i layer0).W (Mat.smul lr (vW'.getD i []))
        = some ((ls'.getD i layer0).W)
      ∧ Mat.matSub (ls.getD i layer0).b (Mat.smul lr (vb'.getD i []))
        = some ((ls'.getD i layer0).b) := by
  induction ls generalizing vW vb ls' vW' vb' with
  | nil =>
    simp only [updLoop, Option.some.injEq, Prod.mk.injEq] at h
    obtain ⟨h1, h2, h3⟩ := h
    subst h1; subst h2; subst h3
    exact ⟨rfl, fun i hi => absurd hi (by simp)⟩
  | cons l ls ih =>
    cases vW with
    | nil => simp only [updLoop] at h; exact Option.noConfusion h
    | cons vw vWs =>
      cases vb with
      | nil => simp only [updLoop] at h; exact Option.noConfusion h
      | cons vb0 vbs =>
        simp only [updLoop] at h
        split at h
        · rename_i hcond
          exact absurd hcond hmu
        · split at h
          · cases h
          · rename_i vw' heqvw
            split at h
            · cases h
            · rename_i vb' heqvb
              split at h
              · cases h
              · rename_i W' heqW
                split at h
                · cases h
                · rename_i b' heqb
                  split at h
                  · cases h
                  · rename_i r heqr
                    cases h
                    obtain ⟨r1, r2, r3⟩ := r
                    obtain ⟨h3, h4⟩ := ih heqr
                    refine ⟨by simpa using h3, ?_⟩
                    intro i hi
                    cases i with
                    | zero =>
                      simp only [List.getD_cons_zero]
                      exact ⟨heqvw, heqvb, heqW, heqb⟩
                    | succ n =>
                      simp only [List.getD_cons_succ]
                      exact h4 n (by simpa using hi)

theorem SGD.update_ok_eq (s : SGD) (x y : Mat ℚ) {m : NeuralNetwork}
    (h1 : s.stepFwdBwd x y = .ok m) :
    s.update x y
      = match updLoop s.lr s.mu m.layers s.v_W s.v_b with
        | none => none
        | some r =>
          some { s with model := { m with layers := r.1 }, v_W := r.2.1, v_b := r.2.2 } := by
  unfold SGD.update
  rw [h1]

theorem update_eq {s : SGD} {x y : Mat ℚ} {m : NeuralNetwork} {s' : SGD}
    (h1 : s.stepFwdBwd x y = .ok m) (h2 : s.update x y = some s') :
    updLoop s.lr s.mu m.layers s.v_W s.v_b
      = some (s'.model.layers, s'.v_W, s'.v_b)
    ∧ s'.lr = s.lr ∧ s'.mu = s.mu ∧ s'.model.loss = m.loss := by
  rw [SGD.update_ok_eq s x y h1] at h2
  split at h2
  · cases h2
  · rename_i r heq
    cases h2
    exact ⟨heq, rfl, rfl, rfl⟩

theorem list_getD_mem (l : List α) (i : Nat) (d : α) (h : i < l.length) :
    l.getD i d ∈ l := by
  induction l generalizing i with
  | nil => simp at h
  | cons a t ih =>
    cases i with
    | zero => simp
    | succ n =>
      simp only [List.getD_cons_succ]
      exact List.mem_cons_of_mem a (ih n (by simpa using h))

/-! ## Concrete instances used by the witnesses -/

/-- A concrete 1×1-weight layer with identity activation. -/
def lC : Layer :=
  { W := [[1]], b := [[0]], act := .idn Identity.new, X := [], Z := [],
    dLdW := [], dLdb := [], fwdDone := false }

/-- A concrete one-layer network. -/
def nnC : NeuralNetwork :=
  { layers := [lC], loss := { pred := [], target := [], fwdDone := false } }

/-- A concrete momentum optimizer (`lr = 1`, `mu = 1`). -/
def sgdMom : SGD := SGD.new nnC 1 1

/-- A concrete plain-SGD optimizer (`lr = 1`, `mu = 0`). -/
def sgdPlain : SGD := SGD.new nnC 1 0

/-- The model state after steps 1–3 of the concrete momentum run. -/
def mMom : NeuralNetwork := (sgdMom.stepFwdBwd [[1]] [[0]]).toOption.getD nnC

/-- The optimizer state after the concrete momentum `update`. -/
def sMom : SGD := (sgdMom.update [[1]] [[0]]).getD sgdMom

/-- The model state after steps 1–3 of the concrete plain-SGD run. -/
def mPlain : NeuralNetwork := (sgdPlain.stepFwdBwd [[1]] [[0]]).toOption.getD nnC

/-- The optimizer state after the concrete plain-SGD `update`. -/
def sPlain : SGD := (sgdPlain.update [[1]] [[0]]).getD sgdPlain

/-- An input whose row count does not match the layer's `W` column count. -/
def xBad : Mat ℚ := [[1], [1]]

/-- The ReLU concrete test input from the spec and the test suite. -/
def ZC : Mat ℚ := [[0.0378, 0.3022, -1.6123], [-2.5186, -1.9395, 1.4077]]

/-- The ReLU concrete upstream gradient from the spec and the test suite. -/
def DC : Mat ℚ := [[1, 2, 3], [4, 5, 6]]

/-! ## Claim theorems -/

/-- C8: the Identity activation's `forward` returns its argument exactly,
and its `backward` returns its argument exactly. -/
theorem identity_exact :
    ∀ (s : Identity) (Z : Mat ℚ),
      (s.forward Z).1 = Z ∧ ∀ (d : Mat ℚ), s.backward d = d := by
  intro s Z
  exact ⟨rfl, fun _ => rfl⟩

/-- C10: ReLU's `forward` is idempotent: running the returned state's
`forward` on the first output reproduces it, since
`max (max x 0) 0 = max x 0`. -/
theorem relu_forward_idempotent :
    ∀ (s : ReLU) (Z : Mat ℚ),
      ((s.forward Z).2.forward ((s.forward Z).1)).1 = (s.forward Z).1 := by
  intro s Z
  show Mat.map (fun x => max x 0) (Mat.map (fun x => max x 0) Z)
      = Mat.map (fun x => max x 0) Z
  unfold Mat.map
  rw [List.map_map]
  congr 1
  funext r
  show List.map (fun x => max x 0) (List.map (fun x => max x 0) r)
      = List.map (fun x => max x 0) r
  rw [List.map_map]
  congr 1
  funext x
  show max (max x 0) 0 = max x 0
  exact max_eq_left (le_max_right x 0)

/-- C4: Sigmoid's `forward` computes `1 / (1 + e^{z})` entrywise — the
exponent is NOT negated (the mirrored form of the canonical sigmoid) —
and stores the result as the instance state `A`. -/
theorem sigmoid_forward_mirrored :
    (∀ (s : Sigmoid) (Z : Mat ℝ) (i j : Nat),
        i < Z.length → j < (Z.getD i []).length →
        Mat.entry (s.forward Z).1 i j = 1 / (1 + Real.exp (Mat.entry Z i j)))
    ∧ ∀ (s : Sigmoid) (Z : Mat ℝ), (s.forward Z).2.A = (s.forward Z).1 := by
  constructor
  · intro s Z i j hi hj
    exact Mat.entry_map (fun x => 1 / (1 + Real.exp x)) Z i j hi hj
  · intro s Z
    rfl

/-- C5: for the implemented Sigmoid, every forward output entry lies
strictly in (0, 1); an entry with input 0 yields exactly 1/2; and
`backward` multiplies the incoming gradient entrywise by `A ⊙ (1 − A)`
computed from the stored forward output. -/
theorem sigmoid_canonical_properties :
    (∀ (s : Sigmoid) (Z : Mat ℝ) (i j : Nat),
        i < Z.length → j < (Z.getD i []).length →
        0 < Mat.entry (s.forward Z).1 i j ∧ Mat.entry (s.forward Z).1 i j < 1)
    ∧ (∀ (s : Sigmoid) (Z : Mat ℝ) (i j : Nat),
        i < Z.length → j < (Z.getD i []).length →
        Mat.entry Z i j = 0 → Mat.entry (s.forward Z).1 i j = 1 / 2)
    ∧ (∀ (s : Sigmoid) (Z d : Mat ℝ) (i j : Nat),
        Mat.sameShapeB d ((s.forward Z).1) = true →
        i < d.length → j < (d.getD i []).length →
        ((s.forward Z).2.backward d).isSome = true
        ∧ Mat.entry (((s.forward Z).2.backward d).getD []) i j
            = Mat.entry d i j * Mat.entry ((s.forward Z).1) i j
              * (1 - Mat.entry ((s.forward Z).1) i j)) := by
  refine ⟨?_, ?_, ?_⟩
  · intro s Z i j hi hj
    rw [show (s.forward Z).1 = Mat.map (fun x => 1 / (1 + Real.exp x)) Z from rfl,
      Mat.entry_map (fun x => 1 / (1 + Real.exp x)) Z i j hi hj]
    have he := Real.exp_pos (Mat.entry Z i j)
    constructor
    · exact div_pos one_pos (by linarith)
    · rw [div_lt_one (by linarith)]
      linarith
  · intro s Z i j hi hj h0
    rw [show (s.forward Z).1 = Mat.map (fun x => 1 / (1 + Real.exp x)) Z from rfl,
      Mat.entry_map (fun x => 1 / (1 + Real.exp x)) Z i j hi hj, h0, Real.exp_zero]
    norm_num
  · intro s Z d i j hs hi hj
    have hsg : Mat.sameShapeB d
        (Mat.map (fun x => x * (1 - x)) ((s.forward Z).2.A)) = true := by
      rw [Mat.sameShapeB_map_right]
      exact hs
    have hbw : (s.forward Z).2.backward d
        = some (List.zipWith (List.zipWith (fun x y => x * y)) d
            (Mat.map (fun x => x * (1 - x)) ((s.forward Z).2.A))) :=
      Mat.ewise_of_sameShape hsg
    constructor
    · rw [hbw]; rfl
    · rw [hbw]
      have hent := Mat.ewise_entry (f := fun x y => x * y)
        (Mat.ewise_of_sameShape (a := d) hsg) i j hi hj
      rw [Option.getD_some] at *
      rw [hent]
      have hlen : d.length = ((s.forward Z).2.A).length := by
        have := Mat.sameShapeB_length hs
        simpa using this
      have hrow : (d.getD i []).length = (((s.forward Z).2.A).getD i []).length := by
        have := Mat.sameShapeB_row hs i hi
        simpa using this
      rw [Mat.entry_map (fun x => x * (1 - x)) ((s.forward Z).2.A) i j
        (hlen ▸ hi) (hrow ▸ hj)]
      rw [show (s.forward Z).2.A = (s.forward Z).1 from rfl]
      ring

/-- C6: ReLU's `forward` computes `max(0, z)` entrywise; after a forward
call, `backward` passes through gradient entries where the stored output
is positive and zeroes the rest; and on the concrete 2×3 test input the
forward and backward outputs are exactly the matrices the spec lists. -/
theorem relu_spec :
    (∀ (s : ReLU) (Z : Mat ℚ) (i j : Nat),
        i < Z.length → j < (Z.getD i []).length →
        Mat.entry (s.forward Z).1 i j = max 0 (Mat.entry Z i j))
    ∧ (∀ (s : ReLU) (Z d : Mat ℚ) (i j : Nat), Z.WF →
        Mat.sameShapeB d ((s.forward Z).1) = true →
        i < Z.length → j < (Z.getD i []).length →
        ((s.forward Z).2.backward d).isSome = true
        ∧ Mat.entry (((s.forward Z).2.backward d).getD []) i j
            = (if 0 < Mat.entry ((s.forward Z).1) i j then Mat.entry d i j else 0))
    ∧ (ReLU.new.forward ZC).1 = [[0.0378, 0.3022, 0], [0, 0, 1.4077]]
    ∧ (ReLU.new.forward ZC).2.backward DC = some [[1, 2, 0], [0, 0, 6]] := by
  refine ⟨?_, ?_, ?_, ?_⟩
  · intro s Z i j hi hj
    rw [show (s.forward Z).1 = Mat.map (fun x => max x 0) Z from rfl,
      Mat.entry_map (fun x => max x 0) Z i j hi hj]
    exact max_comm _ 0
  · intro s Z d i j hwf hs hi hj
    have hAeq : (s.forward Z).2.A = Mat.map (fun x => max x 0) Z := rfl
    have hlen0 : (Mat.map (fun x => max x 0) Z).length = Z.length := by
      simp [Mat.map]
    have hne : (Mat.map (fun x => max x 0) Z).isEmpty = false := by
      apply Mat.isEmpty_eq_false
      · rw [hlen0]
        exact lt_of_le_of_lt (Nat.zero_le i) hi
      · rw [Mat.ncols_map]
        have hmem : Z.getD i [] ∈ Z := list_getD_mem Z i [] hi
        have := hwf (Z.getD i []) hmem
        rw [← this]
        exact lt_of_le_of_lt (Nat.zero_le j) hj
    have hbw : (s.forward Z).2.backward d
        = Mat.component_mul d
            (Mat.map (fun x => if 0 < x then (1:ℚ) else 0)
              (Mat.map (fun x => max x 0) Z)) := by
      unfold ReLU.backward
      rw [show (s.forward Z).2.A = Mat.map (fun x => max x 0) Z from rfl, hne]
      simp
    have hsg : Mat.sameShapeB d
        (Mat.map (fun x => if 0 < x then (1:ℚ) else 0)
          (Mat.map (fun x => max x 0) Z)) = true := by
      rw [Mat.sameShapeB_map_right]
      exact hs
    have hmap_bounds1 : i < (Mat.map (fun x => max x 0) Z).length := by
      rw [hlen0]; exact hi
    have hmap_bounds2 : j < ((Mat.map (fun x => max x 0) Z).getD i []).length := by
      rw [show (Mat.map (fun x => max x 0) Z).getD i [] = List.map (fun x => max x 0) (Z.getD i []) from
        list_getD_map (List.map (fun x => max x 0)) Z i [] [] hi]
      simpa using hj
    have hdlen : d.length = (Mat.map (fun x => max x 0) Z).length := by
      have := Mat.sameShapeB_length hs
      simpa using this
    have hdrow : (d.getD i []).length = ((Mat.map (fun x => max x 0) Z).getD i []).length := by
      have := Mat.sameShapeB_row hs i (by rw [hdlen]; exact hmap_bounds1)
      simpa using this
    constructor
    · rw [hbw, Mat.component_mul, Mat.ewise_of_sameShape hsg]
      rfl
    · rw [hbw, Mat.component_mul]
      have hent := Mat.ewise_entry (f := fun x y => x * y)
        (Mat.ewise_of_sameShape (a := d) hsg) i j
        (by rw [hdlen]; exact hmap_bounds1) (by rw [hdrow]; exact hmap_bounds2)
      rw [Mat.ewise_of_sameShape hsg, Option.getD_some] at *
      rw [hent]
      rw [Mat.entry_map (fun x => if 0 < x then (1:ℚ) else 0)
        (Mat.map (fun x => max x 0) Z) i j hmap_bounds1 hmap_bounds2]
      rw [show (s.forward Z).1 = Mat.map (fun x => max x 0) Z from rfl]
      by_cases hpos : 0 < Mat.entry (Mat.map (fun x => max x 0) Z) i j
      · rw [if_pos hpos, if_pos hpos]; exact mul_one _
      · rw [if_neg hpos, if_neg hpos]; exact mul_zero _
  · norm_num [ReLU.forward, ReLU.new, ZC, Mat.map, max_def]
  · norm_num [ReLU.backward, ReLU.forward, ReLU.new, ZC, DC, Mat.map, Mat.isEmpty,
      Mat.component_mul, Mat.ewise, Mat.sameShapeB, max_def]

/-- C3 counterexample: on a freshly constructed Identity, `backward`
does not fail — it returns its argument (there is no precondition check
in `Identity::backward`). -/
theorem identity_backward_unguarded_cex :
    Identity.new.backward [[1]] = [[1]] := rfl

/-- C3 amended: only ReLU's `backward` checks the forward-before-backward
precondition (it fails on a fresh instance for every gradient); a fresh
Sigmoid's `backward` fails exactly for nonempty gradients (shape mismatch
with the empty stored `A`) and succeeds on the empty gradient; a fresh
Identity's `backward` never fails and returns its argument unchanged. -/
theorem backward_before_forward_amended :
    (∀ d : Mat ℚ, ReLU.new.backward d = none)
    ∧ (∀ d : Mat ℝ, d ≠ [] → Sigmoid.new.backward d = none)
    ∧ Sigmoid.new.backward [] = some []
    ∧ ∀ d : Mat ℚ, Identity.new.backward d = d := by
  refine ⟨fun _ => rfl, ?_, rfl, fun _ => rfl⟩
  intro d hd
  cases d with
  | nil => exact absurd rfl hd
  | cons r rs => rfl

/-- C7: if steps 1–3 of `SGD::update` (forward, loss forward, backward)
fail, then the model state at the panic point has every layer's `W` and
`b` unchanged, and the update produces no mutated optimizer state. -/
theorem sgd_failed_step_preserves_params :
    ∀ (s : SGD) (x y : Mat ℚ) (m : NeuralNetwork),
      s.stepFwdBwd x y = .error m →
      layerParams m.layers = layerParams s.model.layers ∧ s.update x y = none := by
  intro s x y m h
  refine ⟨(stepFwdBwd_params s x y).2 h, ?_⟩
  unfold SGD.update
  rw [h]

/-- C2: with `mu = 0`, one successful `update` leaves both velocity lists
exactly unchanged, leaves `W`/`b` unchanged through steps 1–3, and sets
each layer's parameters to `W_old − lr·dLdW` and `b_old − lr·dLdb`, where
the gradients are the ones produced by that call's backward pass. -/
theorem sgd_plain_update :
    ∀ (s : SGD) (x y : Mat ℚ) (m : NeuralNetwork) (s' : SGD),
      s.mu = 0 →
      s.stepFwdBwd x y = .ok m →
      s.update x y = some s' →
      s'.v_W = s.v_W ∧ s'.v_b = s.v_b
      ∧ layerParams m.layers = layerParams s.model.layers
      ∧ ∀ i, i < m.layers.length →
          Mat.matSub ((s.model.layers.getD i layer0).W)
            (Mat.smul s.lr ((m.layers.getD i layer0).dLdW))
            = some ((s'.model.layers.getD i layer0).W)
          ∧ Mat.matSub ((s.model.layers.getD i layer0).b)
            (Mat.smul s.lr ((m.layers.getD i layer0).dLdb))
            = some ((s'.model.layers.getD i layer0).b) := by
  intro s x y m s' hm h1 h2
  obtain ⟨hLoop, _, _, _⟩ := update_eq h1 h2
  rw [hm] at hLoop
  obtain ⟨h1v, h2v, _, hrel⟩ := updLoop_zero hLoop
  have hparams := (stepFwdBwd_params s x y).1 h1
  refine ⟨h1v, h2v, hparams, ?_⟩
  intro i hi
  obtain ⟨hw, hb⟩ := hrel i hi
  have hlen2 : m.layers.length = s.model.layers.length := layerParams_length hparams
  obtain ⟨hW0, hb0⟩ := layerParams_getD hparams i (hlen2 ▸ hi)
  rw [hW0] at hw
  rw [hb0] at hb
  exact ⟨hw, hb⟩

/-- C1: with `mu > 0`, one successful `update` applies the heavy-ball
recurrence per layer: `v ← mu·v + g` then `param ← param − lr·v` (with the
gradients of that call's backward pass and no `(1 − mu)` rescaling);
consequently, from zero velocity, after one step `v_W` equals `dLdW` and
`W` equals `W_old − lr·dLdW`, and after a second step with new gradient
`dLdW'` the velocity satisfies `v_W = mu·dLdW + dLdW'`. -/
theorem sgd_momentum_update :
    ∀ (s : SGD) (x y : Mat ℚ) (m : NeuralNetwork) (s' : SGD),
      0 < s.mu →
      s.stepFwdBwd x y = .ok m →
      s.update x y = some s' →
      layerParams m.layers = layerParams s.model.layers
      ∧ (∀ i, i < m.layers.length →
          Mat.matAdd (Mat.smul s.mu (s.v_W.getD i [])) ((m.layers.getD i layer0).dLdW)
            = some (s'.v_W.getD i [])
          ∧ Mat.matAdd (Mat.smul s.mu (s.v_b.getD i [])) ((m.layers.getD i layer0).dLdb)
            = some (s'.v_b.getD i [])
          ∧ Mat.matSub ((s.model.layers.getD i layer0).W)
              (Mat.smul s.lr (s'.v_W.getD i []))
            = some ((s'.model.layers.getD i layer0).W)
          ∧ Mat.matSub ((s.model.layers.getD i layer0).b)
              (Mat.smul s.lr (s'.v_b.getD i []))
            = some ((s'.model.layers.getD i layer0).b))
      ∧ (∀ i, i < m.layers.length → Mat.IsZero (s.v_W.getD i []) →
          s'.v_W.getD i [] = (m.layers.getD i layer0).dLdW
          ∧ Mat.matSub ((s.model.layers.getD i layer0).W)
              (Mat.smul s.lr ((m.layers.getD i layer0).dLdW))
            = some ((s'.model.layers.getD i layer0).W))
      ∧ (∀ (x' y' : Mat ℚ) (m2 : NeuralNetwork) (s2 : SGD),
          s'.stepFwdBwd x' y' = .ok m2 →
          s'.update x' y' = some s2 →
          ∀ i, i < m.layers.length → Mat.IsZero (s.v_W.getD i []) →
            Mat.matAdd (Mat.smul s.mu ((m.layers.getD i layer0).dLdW))
              ((m2.layers.getD i layer0).dLdW)
              = some (s2.v_W.getD i [])) := by
  intro s x y m s' h0 h1 h2
  have hmu : s.mu ≠ 0 := ne_of_gt h0
  obtain ⟨hLoop, hlr, hmueq, hloss⟩ := update_eq h1 h2
  have hparams : layerParams m.layers = layerParams s.model.layers :=
    (stepFwdBwd_params s x y).1 h1
  obtain ⟨hlenL, hrec⟩ := updLoop_momentum hmu hLoop
  have hWold : ∀ i, i < m.layers.length →
      (m.layers.getD i layer0).W = (s.model.layers.getD i layer0).W
      ∧ (m.layers.getD i layer0).b = (s.model.layers.getD i layer0).b := by
    intro i hi
    have hlen2 : m.layers.length = s.model.layers.length := layerParams_length hparams
    exact layerParams_getD hparams i (hlen2 ▸ hi)
  refine ⟨hparams, ?_, ?_, ?_⟩
  · intro i hi
    obtain ⟨ha, hb, hw, hbb⟩ := hrec i hi
    obtain ⟨hW0, hb0⟩ := hWold i hi
    rw [hW0] at hw
    rw [hb0] at hbb
    exact ⟨ha, hb, hw, hbb⟩
  · intro i hi hz
    obtain ⟨ha, _, hw, _⟩ := hrec i hi
    obtain ⟨hW0, _⟩ := hWold i hi
    have hv : s'.v_W.getD i [] = (m.layers.getD i layer0).dLdW :=
      Mat.matAdd_isZero_left (Mat.isZero_smul hz) ha
    rw [hW0] at hw
    rw [hv] at hw
    exact ⟨hv, hw⟩
  · intro x' y' m2 s2 h1' h2' i hi hz
    have hmu' : s'.mu ≠ 0 := by rw [hmueq]; exact hmu
    obtain ⟨hLoop2, _, _, _⟩ := update_eq h1' h2'
    obtain ⟨hlenL2, hrec2⟩ := updLoop_momentum hmu' hLoop2
    have hparams2 : layerParams m2.layers = layerParams s'.model.layers :=
      (stepFwdBwd_params s' x' y').1 h1'
    have hi2 : i < m2.layers.length := by
      rw [layerParams_length hparams2, hlenL]
      exact hi
    obtain ⟨ha2, _, _, _⟩ := hrec2 i hi2
    have hv : s'.v_W.getD i [] = (m.layers.getD i layer0).dLdW := by
      obtain ⟨ha, _, _, _⟩ := hrec i hi
      exact Mat.matAdd_isZero_left (Mat.isZero_smul hz) ha
    rw [hmueq, hv] at ha2
    exact ha2

/-- C9: `SGD::new` creates exactly one velocity pair per layer, each a
zero matrix shaped like the layer's `W` (resp. `b`). -/
theorem sgd_new_velocities :
    ∀ (model : NeuralNetwork) (lr mu : ℚ),
      (SGD.new model lr mu).v_W.length = model.layers.length
      ∧ (SGD.new model lr mu).v_b.length = model.layers.length
      ∧ ∀ i, i < model.layers.length →
          (SGD.new model lr mu).v_W.getD i []
            = Mat.zeros (model.layers.getD i layer0).W.nrows (model.layers.getD i layer0).W.ncols
          ∧ (SGD.new model lr mu).v_b.getD i []
            = Mat.zeros (model.layers.getD i layer0).b.nrows (model.layers.getD i layer0).b.ncols
          ∧ Mat.IsZero ((SGD.new model lr mu).v_W.getD i [])
          ∧ Mat.IsZero ((SGD.new model lr mu).v_b.getD i [])
          ∧ ((SGD.new model lr mu).v_W.getD i []).nrows = (model.layers.getD i layer0).W.nrows
          ∧ ((SGD.new model lr mu).v_b.getD i []).nrows = (model.layers.getD i layer0).b.nrows
          ∧ (0 < (model.layers.getD i layer0).W.nrows →
              ((SGD.new model lr mu).v_W.getD i []).ncols
                = (model.layers.getD i layer0).W.ncols)
          ∧ (0 < (model.layers.getD i layer0).b.nrows →
              ((SGD.new model lr mu).v_b.getD i []).ncols
                = (model.layers.getD i layer0).b.ncols) := by
  intro model lr mu
  refine ⟨by simp [SGD.new], by simp [SGD.new], ?_⟩
  intro i hi
  have hW : (SGD.new model lr mu).v_W.getD i []
      = Mat.zeros (model.layers.getD i layer0).W.nrows (model.layers.getD i layer0).W.ncols := by
    show (List.map (fun l => Mat.zeros l.W.nrows l.W.ncols) model.layers).getD i [] = _
    rw [list_getD_map (fun l => Mat.zeros l.W.nrows l.W.ncols) model.layers i layer0 [] hi]
  have hb : (SGD.new model lr mu).v_b.getD i []
      = Mat.zeros (model.layers.getD i layer0).b.nrows (model.layers.getD i layer0).b.ncols := by
    show (List.map (fun l => Mat.zeros l.b.nrows l.b.ncols) model.layers).getD i [] = _
    rw [list_getD_map (fun l => Mat.zeros l.b.nrows l.b.ncols) model.layers i layer0 [] hi]
  refine ⟨hW, hb, ?_, ?_, ?_, ?_, ?_, ?_⟩
  · rw [hW]; exact Mat.isZero_zeros _ _
  · rw [hb]; exact Mat.isZero_zeros _ _
  · rw [hW]; exact Mat.nrows_zeros _ _
  · rw [hb]; exact Mat.nrows_zeros _ _
  · intro h; rw [hW]; exact Mat.ncols_zeros _ _ h
  · intro h; rw [hb]; exact Mat.ncols_zeros _ _ h

/-! ## Witnesses -/

theorem sigmoid_forward_mirrored_witness :
    ((0:Nat) < ([[(0:ℝ)]] : Mat ℝ).length)
    ∧ ((0:Nat) < (([[(0:ℝ)]] : Mat ℝ).getD 0 []).length)
    ∧ Mat.entry (Sigmoid.new.forward [[(0:ℝ)]]).1 0 0
        = 1 / (1 + Real.exp (Mat.entry ([[(0:ℝ)]] : Mat ℝ) 0 0)) :=
  ⟨by decide, by decide,
   sigmoid_forward_mirrored.1 Sigmoid.new [[(0:ℝ)]] 0 0 (by decide) (by decide)⟩

theorem sigmoid_canonical_properties_witness :
    (Mat.entry ([[(0:ℝ)]] : Mat ℝ) 0 0 = 0)
    ∧ Mat.sameShapeB ([[(1:ℝ)]] : Mat ℝ) ((Sigmoid.new.forward [[(0:ℝ)]]).1) = true
    ∧ Mat.entry (Sigmoid.new.forward [[(0:ℝ)]]).1 0 0 = 1 / 2
    ∧ ((Sigmoid.new.forward [[(0:ℝ)]]).2.backward [[(1:ℝ)]]).isSome = true :=
  ⟨rfl, by decide,
   sigmoid_canonical_properties.2.1 Sigmoid.new [[(0:ℝ)]] 0 0 (by decide) (by decide) rfl,
   (sigmoid_canonical_properties.2.2 Sigmoid.new [[(0:ℝ)]] [[(1:ℝ)]] 0 0
     (by decide) (by decide) (by decide)).1⟩

theorem relu_spec_witness :
    ZC.WF
    ∧ Mat.sameShapeB DC ((ReLU.new.forward ZC).1) = true
    ∧ ((0:Nat) < ZC.length) ∧ ((0:Nat) < (ZC.getD 0 []).length)
    ∧ ((ReLU.new.forward ZC).2.backward DC).isSome = true :=
  ⟨by decide, by decide, by decide, by decide,
   (relu_spec.2.1 ReLU.new ZC DC 0 0 (by decide) (by decide) (by decide) (by decide)).1⟩

theorem backward_before_forward_amended_witness :
    ([[(0:ℝ)]] ≠ ([] : Mat ℝ)) ∧ Sigmoid.new.backward [[(0:ℝ)]] = none :=
  ⟨by simp, backward_before_forward_amended.2.1 [[(0:ℝ)]] (by simp)⟩

theorem sgd_failed_step_witness :
    sgdMom.stepFwdBwd xBad [[0]] = .error sgdMom.model
    ∧ (layerParams sgdMom.model.layers = layerParams sgdMom.model.layers
        ∧ sgdMom.update xBad [[0]] = none) :=
  ⟨rfl, sgd_failed_step_preserves_params sgdMom xBad [[0]] sgdMom.model rfl⟩

theorem sgd_plain_update_witness :
    sgdPlain.mu = 0
    ∧ sgdPlain.stepFwdBwd [[1]] [[0]] = .ok mPlain
    ∧ sgdPlain.update [[1]] [[0]] = some sPlain
    ∧ sPlain.v_W = sgdPlain.v_W :=
  ⟨rfl, rfl, rfl, (sgd_plain_update sgdPlain [[1]] [[0]] mPlain sPlain rfl rfl rfl).1⟩

theorem sgd_momentum_update_witness :
    (0 < sgdMom.mu)
    ∧ sgdMom.stepFwdBwd [[1]] [[0]] = .ok mMom
    ∧ sgdMom.update [[1]] [[0]] = some sMom
    ∧ ((0:Nat) < mMom.layers.length)
    ∧ Mat.IsZero (sgdMom.v_W.getD 0 [])
    ∧ sMom.v_W.getD 0 [] = (mMom.layers.getD 0 layer0).dLdW := by
  have hmu : 0 < sgdMom.mu := by norm_num [sgdMom, SGD.new]
  have hlen : (0:Nat) < mMom.layers.length := by decide
  have hz : Mat.IsZero (sgdMom.v_W.getD 0 []) := by decide
  exact ⟨hmu, rfl, rfl, hlen, hz,
    ((sgd_momentum_update sgdMom [[1]] [[0]] mMom sMom hmu rfl rfl).2.2.1 0 hlen hz).1⟩

theorem sgd_new_velocities_witness :
    ((0:Nat) < nnC.layers.length)
    ∧ (SGD.new nnC 1 1).v_W.getD 0 []
        = Mat.zeros (nnC.layers.getD 0 layer0).W.nrows (nnC.layers.getD 0 layer0).W.ncols :=
  ⟨by decide, ((sgd_new_velocities nnC 1 1).2.2 0 (by decide)).1⟩

end DnnRs
